import Mathlib

/-!
Verification of the corridor network generator.

This file gives a shallow embedding of the two Python scripts
`scripts/generate_network.py` and `scripts/voronoi.py` and proves the
frozen claims about them.  Conventions of the embedding:

* Python floats are represented by rationals.
* External collaborators (numpy randomness, `random.sample` and
  `random.choice`, numpy `sqrt`, and the scipy `Voronoi` computation)
  are passed in as explicit oracle parameters; theorems hypothesise
  exactly the contracts those library calls guarantee.
* Python dicts used as records become structures; the dict used as a
  coordinate-to-id mapping becomes an insertion-ordered association
  list whose lookup takes the latest binding, matching dict overwrite
  semantics.
* The in-place mutation of node dicts is modelled twice: once purely
  (value level) and once against an explicit heap of dict objects, to
  settle the frame claim about the shared base graph.
-/

/-- A node record, mirroring the node dicts built in
`build_base_graph` (`generate_network.py`). -/
structure Node where
  id : Nat
  position : ℚ × ℚ
  node_type : String
  physical_attributes : List String
  turn_restrictions : List String
deriving DecidableEq, Inhabited

/-- An edge record as produced by `generate_mode_graph`. -/
structure EdgeRec where
  id : Nat
  from_node : Nat
  to_node : Nat
  facility_type : String
  physical_attributes : List String
deriving DecidableEq, Inhabited

/-- A mode graph as returned by `generate_mode_graph`. -/
structure ModeGraph where
  mode : String
  nodes : List Node
  edges : List EdgeRec
deriving DecidableEq, Inhabited

/-- The final network: the `graphs` dict keyed by mode label,
kept as an insertion-ordered association list. -/
structure Network where
  graphs : List (String × ModeGraph)
deriving DecidableEq, Inhabited

/-- The output of the scipy `Voronoi` computation, as far as the
scripts consume it: vertex coordinates, ridge endpoint indices
(`-1` marking an unbounded end), the region index of every input
point, and the vertex index lists of the regions. -/
structure VorDiagram where
  vertices : List (ℚ × ℚ)
  ridge_vertices : List (Int × Int)
  point_region : List Nat
  regions : List (List Int)
deriving DecidableEq, Inhabited

/-- Lookup in an insertion-ordered association list with Python dict
semantics: a later binding of the same key overwrites an earlier one. -/
def dictGet {κ : Type} {ν : Type} [DecidableEq κ] : List (κ × ν) → κ → Option ν
  | [], _ => none
  | p :: m, k =>
    match dictGet m k with
    | some v => some v
    | none => if p.1 = k then some p.2 else none

theorem dictGet_nil {κ ν : Type} [DecidableEq κ] (k : κ) :
    dictGet ([] : List (κ × ν)) k = none := rfl

theorem dictGet_append_single {κ ν : Type} [DecidableEq κ]
    (m : List (κ × ν)) (c : κ) (v : ν) (k : κ) :
    dictGet (m ++ [(c, v)]) k = if c = k then some v else dictGet m k := by
  induction m with
  | nil => simp [dictGet]
  | cons p m ih =>
    simp only [List.cons_append, dictGet, List.append_eq]
    rw [ih]
    by_cases h : c = k
    · simp [h]
    · simp [h]

theorem dictGet_mem {κ ν : Type} [DecidableEq κ]
    {m : List (κ × ν)} {k : κ} {v : ν} (h : dictGet m k = some v) :
    (k, v) ∈ m := by
  induction m with
  | nil => simp [dictGet] at h
  | cons p m ih =>
    simp only [dictGet] at h
    cases hm : dictGet m k with
    | some w =>
      rw [hm] at h
      exact List.mem_cons_of_mem _ (ih (hm.trans h))
    | none =>
      rw [hm] at h
      by_cases hk : p.1 = k
      · rw [if_pos hk] at h
        injection h with hv
        subst hk
        subst hv
        cases p with
        | mk a b => exact List.mem_cons_self _ _
      · simp [hk] at h

theorem dictGet_eq_none_iff {κ ν : Type} [DecidableEq κ]
    (m : List (κ × ν)) (k : κ) :
    dictGet m k = none ↔ ∀ p ∈ m, p.1 ≠ k := by
  induction m with
  | nil => simp [dictGet]
  | cons p m ih =>
    simp only [dictGet]
    cases hm : dictGet m k with
    | some w =>
      simp only [List.mem_cons]
      constructor
      · intro h; exact absurd h (by simp)
      · intro h
        have := (ih.mpr (fun q hq => h q (Or.inr hq)))
        rw [hm] at this; exact absurd this (by simp)
    | none =>
      by_cases hk : p.1 = k
      · simp only [hk, if_pos rfl]
        constructor
        · intro h; exact absurd h (by simp)
        · intro h; exact absurd hk (h p (List.mem_cons_self p m))
      · simp only [hk, if_neg hk]
        constructor
        · intro _ q hq
          rcases List.mem_cons.mp hq with rfl | hq
          · exact hk
          · exact (ih.mp hm) q hq
        · intro _; rfl

theorem dictGet_isSome_iff {κ ν : Type} [DecidableEq κ]
    (m : List (κ × ν)) (k : κ) :
    (dictGet m k).isSome = true ↔ k ∈ m.map Prod.fst := by
  rw [← Option.ne_none_iff_isSome]
  constructor
  · intro h
    by_contra hk
    apply h
    rw [dictGet_eq_none_iff]
    intro p hp hpk
    exact hk (hpk ▸ List.mem_map_of_mem Prod.fst hp)
  · intro hk h
    rw [dictGet_eq_none_iff] at h
    rcases List.mem_map.mp hk with ⟨p, hp, hpk⟩
    exact h p hp hpk

theorem dictGet_val_mem {κ ν : Type} [DecidableEq κ]
    {m : List (κ × ν)} {k : κ} {v : ν} (h : dictGet m k = some v) :
    v ∈ m.map Prod.snd :=
  List.mem_map_of_mem Prod.snd (dictGet_mem h)

/-- If the values of the association list are pairwise distinct then
the lookup is injective: two keys bound to the same value coincide. -/
theorem dictGet_inj {κ ν : Type} [DecidableEq κ]
    {m : List (κ × ν)} (hnd : (m.map Prod.snd).Nodup)
    {k1 k2 : κ} {v : ν}
    (h1 : dictGet m k1 = some v) (h2 : dictGet m k2 = some v) :
    k1 = k2 := by
  have m1 := dictGet_mem h1
  have m2 := dictGet_mem h2
  have := List.inj_on_of_nodup_map hnd m1 m2 rfl
  exact congrArg Prod.fst this

/-- Bundle of per-mode randomness, standing for the calls into the
global `random` module made while deriving one mode graph:
`random.sample` over node ids, `random.sample` over edge indices
(both returned as the set of picked elements), and `random.choice`
over the facility list, indexed by the edge counter. -/
structure ModeRandom where
  nodeSample : List Nat → Nat → Finset Nat
  edgeSample : List Nat → Nat → Finset Nat
  label : List String → Nat → String

/-- Oracles for the external collaborators of `generate_network`:
the numpy uniform draws (one `(x, y, u)` triple per loop attempt),
numpy square root, the scipy Voronoi computation, and the per-mode
randomness (indexed by the position of the mode in the mode list,
since the global random stream advances between modes). -/
structure Oracles where
  draw : Nat → ℚ × ℚ × ℚ
  sqrtQ : ℚ → ℚ
  voronoi : List (ℚ × ℚ) → VorDiagram
  modeRand : Nat → ModeRandom

/-- `NODE_REMOVAL_FRACTION` from `generate_network.py`. -/
def NODE_REMOVAL_FRACTION : ℚ := 1 / 10

/-- `EDGE_REMOVAL_FRACTION` from `generate_network.py`. -/
def EDGE_REMOVAL_FRACTION : ℚ := 2 / 10

/-- The rejection-sampling while loop of `generate_city_points`
(`generate_network.py` lines 18-31).  The loop runs while fewer than
`n` points are accepted and fewer than `n * 50` attempts were made;
the remaining attempt budget is the structural fuel. -/
def sample_loop (n : Nat) (w h : ℚ) (draw : Nat → ℚ × ℚ × ℚ) (sq : ℚ → ℚ) :
    Nat → Nat → List (ℚ × ℚ) → List (ℚ × ℚ)
  | _, 0, pts => pts
  | attempt, fuel + 1, pts =>
    if pts.length < n then
      let d := draw attempt
      let x := d.1
      let y := d.2.1
      let u := d.2.2
      let cx := w / 2
      let cy := h / 2
      let dist := sq ((x - cx) ^ 2 + (y - cy) ^ 2)
      let max_dist := sq (cx ^ 2 + cy ^ 2)
      let norm_dist := dist / max_dist * (7 / 10)
      let prob := (1 - norm_dist) ^ 3
      if u < prob then
        sample_loop n w h draw sq (attempt + 1) fuel (pts ++ [(x, y)])
      else
        sample_loop n w h draw sq (attempt + 1) fuel pts
    else pts

/-- The sampling phase of `generate_city_points`: run the rejection
loop from attempt `0` with the full `n * 50` attempt budget. -/
def sample_phase (n : Nat) (w h : ℚ) (draw : Nat → ℚ × ℚ × ℚ) (sq : ℚ → ℚ) :
    List (ℚ × ℚ) :=
  sample_loop n w h draw sq 0 (n * 50) []

/-- `np.mean(vertices, axis=0)`: componentwise average of a point list. -/
def mean_point (l : List (ℚ × ℚ)) : ℚ × ℚ :=
  ((l.map Prod.fst).sum / l.length, (l.map Prod.snd).sum / l.length)

/-- The body of the relaxation loop of `generate_city_points` in
`generate_network.py` (lines 37-47) for one `(idx, region_index)`
pair: keep the point if its region is unbounded or empty, otherwise
move it to the region centroid when that stays inside the rectangle. -/
def relaxOne (pts : List (ℚ × ℚ)) (vor : VorDiagram) (w h : ℚ)
    (p : Nat × Nat) : ℚ × ℚ :=
  let region := vor.regions.getD p.2 []
  if (-1 : Int) ∈ region ∨ region = [] then pts.getD p.1 (0, 0)
  else
    let vertices := region.map fun i => vor.vertices.getD i.toNat (0, 0)
    let centroid := mean_point vertices
    if 0 ≤ centroid.1 ∧ centroid.1 ≤ w ∧ 0 ≤ centroid.2 ∧ centroid.2 ≤ h then
      centroid
    else pts.getD p.1 (0, 0)

/-- One Lloyd relaxation iteration of `generate_city_points`
(`generate_network.py` lines 34-48): the loop appends exactly one
relaxed point per entry of `vor.point_region`. -/
def relax_step (pts : List (ℚ × ℚ)) (vor : VorDiagram) (w h : ℚ) :
    List (ℚ × ℚ) :=
  vor.point_region.enum.foldl
    (fun acc p => acc ++ [relaxOne pts vor w h p]) []

/-- One Lloyd relaxation iteration of the older variant in
`voronoi.py` (lines 39-57): a point whose region is unbounded or
empty is skipped (`continue`) instead of being kept. -/
def relax_step_legacy (pts : List (ℚ × ℚ)) (vor : VorDiagram) (w h : ℚ) :
    List (ℚ × ℚ) :=
  vor.point_region.enum.foldl
    (fun acc p =>
      let region := vor.regions.getD p.2 []
      if (-1 : Int) ∈ region ∨ region = [] then acc
      else
        let vertices := region.map fun i => vor.vertices.getD i.toNat (0, 0)
        let centroid := mean_point vertices
        if 0 ≤ centroid.1 ∧ centroid.1 ≤ w ∧ 0 ≤ centroid.2 ∧ centroid.2 ≤ h then
          acc ++ [centroid]
        else acc ++ [pts.getD p.1 (0, 0)]) []

/-- `generate_city_points` from `generate_network.py`: rejection
sampling followed by `iterations` Lloyd relaxation steps, recomputing
the Voronoi diagram of the current point set each time. -/
def generate_city_points (n : Nat) (w h : ℚ) (iterations : Nat)
    (O : Oracles) : List (ℚ × ℚ) :=
  let pts := sample_phase n w h O.draw O.sqrtQ
  (List.range iterations).foldl
    (fun ps _ => relax_step ps (O.voronoi ps) w h) pts

/-- Rounding to two decimal places, modelling `round(x, 2)` on the
already-rational embedded coordinates. -/
def round2 (q : ℚ) : ℚ := (round (q * 100) : ℤ) / 100

/-- Strict lexicographic order on coordinate pairs, the order Python
uses to compare the two-element tuples fed to `sorted`. -/
def pairLt (a b : ℚ × ℚ) : Prop := a.1 < b.1 ∨ (a.1 = b.1 ∧ a.2 < b.2)

instance (a b : ℚ × ℚ) : Decidable (pairLt a b) := by
  unfold pairLt; infer_instance

/-- `tuple(sorted((n1, n2)))`: put the two rounded coordinates in
ascending lexicographic order. -/
def sortPair (a b : ℚ × ℚ) : (ℚ × ℚ) × (ℚ × ℚ) :=
  if pairLt b a then (b, a) else (a, b)

/-- The unordered key of an integer edge, used to state that no two
edges join the same pair of nodes. -/
def unorderedKeyN (e : Nat × Nat) : Nat × Nat :=
  if e.1 ≤ e.2 then e else (e.2, e.1)

/-- The mutable state threaded through the ridge loop of
`build_base_graph`: the node list, the edge list, the coordinate-to-id
dict and the `edge_seen` set (kept as a duplicate-free list). -/
structure BBState where
  nodes : List Node
  base_edges : List (Nat × Nat)
  node_mapping : List ((ℚ × ℚ) × Nat)
  edge_seen : List ((ℚ × ℚ) × (ℚ × ℚ))
deriving DecidableEq, Inhabited

/-- `ensure_node` from `build_base_graph`: insert the coordinate with
a fresh id `len(nodes)` unless already present, and return its id. -/
def ensure_node (st : BBState) (coord : ℚ × ℚ) : BBState × Nat :=
  match dictGet st.node_mapping coord with
  | some v => (st, v)
  | none =>
    let nid := st.nodes.length
    ({ st with
        node_mapping := st.node_mapping ++ [(coord, nid)]
        nodes := st.nodes ++ [{ id := nid
                                position := coord
                                node_type := "Intersection"
                                physical_attributes := []
                                turn_restrictions := [] }] }, nid)

/-- The tail of the ridge-loop body once a ridge is retained: record
its key in `edge_seen`, ensure both endpoint nodes and append the
edge. -/
def bb_add_edge (st : BBState) (n1 n2 : ℚ × ℚ) : BBState :=
  let st1 := { st with edge_seen := st.edge_seen ++ [sortPair n1 n2] }
  let r1 := ensure_node st1 n1
  let r2 := ensure_node r1.1 n2
  { r2.1 with base_edges := r2.1.base_edges ++ [(r1.2, r2.2)] }

/-- The body of the ridge loop of `build_base_graph`
(`generate_network.py` lines 75-94) for one `ridge_vertices` entry. -/
def bb_step (vor : VorDiagram) (w h : ℚ) (st : BBState)
    (ridge : Int × Int) : BBState :=
  if ridge.1 = -1 ∨ ridge.2 = -1 then st
  else
    let p1 := vor.vertices.getD ridge.1.toNat (0, 0)
    let p2 := vor.vertices.getD ridge.2.toNat (0, 0)
    if ¬(0 ≤ p1.1 ∧ p1.1 ≤ w ∧ 0 ≤ p1.2 ∧ p1.2 ≤ h) then st
    else if ¬(0 ≤ p2.1 ∧ p2.1 ≤ w ∧ 0 ≤ p2.2 ∧ p2.2 ≤ h) then st
    else
      let n1 := (round2 p1.1, round2 p1.2)
      let n2 := (round2 p2.1, round2 p2.2)
      if n1 = n2 then st
      else if sortPair n1 n2 ∈ st.edge_seen then st
      else bb_add_edge st n1 n2

/-- The final state of the ridge loop of `build_base_graph`. -/
def build_base_state (vor : VorDiagram) (w h : ℚ) : BBState :=
  vor.ridge_vertices.foldl (bb_step vor w h) ⟨[], [], [], []⟩

/-- `build_base_graph` from `generate_network.py`: nodes and integer
edges derived from the Voronoi ridges of the given diagram. -/
def build_base_graph (vor : VorDiagram) (w h : ℚ) :
    List Node × List (Nat × Nat) :=
  ((build_base_state vor w h).nodes, (build_base_state vor w h).base_edges)

/-- `knock_out_edges` from `generate_network.py`: remove a sampled set
of edge indices.  `sample` stands for `random.sample` over the index
list, returned as the set of picked indices. -/
def knock_out_edges (base_edges : List (Nat × Nat)) (removal_fraction : ℚ)
    (sample : List Nat → Nat → Finset Nat) : List (Nat × Nat) :=
  if base_edges.isEmpty ∨ removal_fraction ≤ 0 then base_edges
  else
    let edge_indices := List.range base_edges.length
    let remove_count :=
      min base_edges.length
        (Int.toNat (Int.floor ((base_edges.length : ℚ) * removal_fraction)))
    let to_remove :=
      if remove_count = 0 then (∅ : Finset Nat)
      else sample edge_indices remove_count
    (base_edges.enum.filter (fun p => p.1 ∉ to_remove)).map Prod.snd

/-- `prune_nodes_for_mode` from `generate_network.py`: remove a sampled
set of node ids together with all incident edges.  The `dict(node)`
copies are value copies, hence the identity in this pure model. -/
def prune_nodes_for_mode (nodes : List Node) (base_edges : List (Nat × Nat))
    (removal_fraction : ℚ) (sample : List Nat → Nat → Finset Nat) :
    List Node × List (Nat × Nat) :=
  if nodes.isEmpty ∨ removal_fraction ≤ 0 then (nodes, base_edges)
  else
    let node_ids := nodes.map Node.id
    let remove_count :=
      min node_ids.length
        (Int.toNat (Int.floor ((node_ids.length : ℚ) * removal_fraction)))
    let removed_ids :=
      if remove_count = 0 then (∅ : Finset Nat)
      else sample node_ids remove_count
    (nodes.filter (fun nd => nd.id ∉ removed_ids),
     base_edges.filter (fun e => e.1 ∉ removed_ids ∧ e.2 ∉ removed_ids))

/-- The `connected_ids` set of `reindex_nodes_and_edges`. -/
def connectedIds (edges : List (Nat × Nat)) : Finset Nat :=
  edges.foldl (fun s e => insert e.1 (insert e.2 s)) ∅

/-- The `filtered_nodes` list of `reindex_nodes_and_edges`: nodes
whose id is touched by some edge. -/
def filtered_nodes_of (nodes : List Node) (edges : List (Nat × Nat)) :
    List Node :=
  nodes.filter (fun nd => nd.id ∈ connectedIds edges)

/-- The `id_map` dict of `reindex_nodes_and_edges`: each filtered
node's old id bound to its position. -/
def id_map_of (nodes : List Node) (edges : List (Nat × Nat)) :
    List (Nat × Nat) :=
  (filtered_nodes_of nodes edges).enum.map (fun p => (p.2.id, p.1))

/-- The edge-rewriting step of `reindex_nodes_and_edges`: keep an edge
only when both endpoints are in `id_map`, remapping them. -/
def remapEdge (id_map : List (Nat × Nat)) (e : Nat × Nat) :
    Option (Nat × Nat) :=
  match dictGet id_map e.1, dictGet id_map e.2 with
  | some a, some b => some (a, b)
  | _, _ => none

/-- `reindex_nodes_and_edges` from `generate_network.py`: drop nodes
touched by no edge, remap the surviving node ids to their positions,
and rewrite edges through the same map, dropping any edge with an
endpoint missing from the map. -/
def reindex_nodes_and_edges (nodes : List Node) (edges : List (Nat × Nat)) :
    List Node × List (Nat × Nat) :=
  if edges.isEmpty then ([], [])
  else
    ((filtered_nodes_of nodes edges).map
      (fun nd =>
        { nd with id := (dictGet (id_map_of nodes edges) nd.id).getD nd.id }),
     edges.filterMap (remapEdge (id_map_of nodes edges)))

/-- The `facility_types_by_mode` dict literal of `generate_mode_graph`. -/
def facility_types_by_mode : List (String × List String) :=
  [("Bike", ["ProtectedLane", "BufferedLane", "SharedLane"]),
   ("Walk", ["Sidewalk", "SharedUsePath", "Trail"]),
   ("Transit", ["BusLane", "Rail", "BRT"]),
   ("Car", ["Highway", "Arterial", "LocalStreet"])]

/-- `facility_types_by_mode.get(mode, ["Generic"])`. -/
def facilityTypesFor (mode : String) : List String :=
  (dictGet facility_types_by_mode mode).getD ["Generic"]

/-- `generate_mode_graph` from `generate_network.py`: prune nodes,
knock out edges, reindex, then wrap the surviving integer edges into
labelled edge records. -/
def generate_mode_graph (mode : String) (nodes : List Node)
    (base_edges : List (Nat × Nat)) (rnd : ModeRandom) : ModeGraph :=
  let facility_types := facilityTypesFor mode
  let pr := prune_nodes_for_mode nodes base_edges NODE_REMOVAL_FRACTION
      rnd.nodeSample
  let mode_edges_raw := knock_out_edges pr.2 EDGE_REMOVAL_FRACTION
      rnd.edgeSample
  let ri := reindex_nodes_and_edges pr.1 mode_edges_raw
  let edges := ri.2.enum.map
    (fun p =>
      { id := p.1
        from_node := p.2.1
        to_node := p.2.2
        facility_type := rnd.label facility_types p.1
        physical_attributes := [] : EdgeRec })
  { mode := mode, nodes := ri.1, edges := edges }

/-- Minimum of a rational list via `foldl min`, modelling Python
`min(xs)` on a nonempty list. -/
def listMin (l : List ℚ) : ℚ := l.foldl min (l.headD 0)

/-- Maximum of a rational list, modelling Python `max(xs)`. -/
def listMax (l : List ℚ) : ℚ := l.foldl max (l.headD 0)

/-- The recentering block of `generate_network` (lines 183-190):
subtract the bounding-box center from every node position. -/
def recenter (nodes : List Node) : List Node :=
  if nodes.isEmpty then nodes
  else
    let xs := nodes.map (fun nd => nd.position.1)
    let zs := nodes.map (fun nd => nd.position.2)
    let center_x := (listMin xs + listMax xs) / 2
    let center_z := (listMin zs + listMax zs) / 2
    nodes.map (fun nd =>
      { nd with position := (nd.position.1 - center_x, nd.position.2 - center_z) })

/-- `graphs[mode] = g` on the insertion-ordered association list:
overwrite in place when the key exists, append otherwise. -/
def dictInsertMG (m : List (String × ModeGraph)) (k : String)
    (g : ModeGraph) : List (String × ModeGraph) :=
  if m.any (fun p => p.1 = k) then
    m.map (fun p => if p.1 = k then (k, g) else p)
  else m ++ [(k, g)]

/-- `generate_network` from `generate_network.py`: sample and relax
points, build the shared base graph, recenter it and derive one mode
graph per requested mode. -/
def generate_network (n : Nat) (modes : List String) (O : Oracles) :
    Network :=
  let map_size := max 30 (O.sqrtQ (n : ℚ) * 10)
  let points := generate_city_points n map_size map_size 3 O
  let bb := build_base_graph (O.voronoi points) map_size map_size
  let nodes := recenter bb.1
  let graphs := modes.enum.foldl
    (fun m p => dictInsertMG m p.2
      (generate_mode_graph p.2 nodes bb.2 (O.modeRand p.1))) []
  { graphs := graphs }

/-- Decidable well-formedness of a mode graph, as claimed for every
graph produced by `generate_network`: node ids are exactly the
positions `0..k-1`, and every edge has in-range, distinct endpoints. -/
def modeGraphWF (g : ModeGraph) : Bool :=
  (decide (g.nodes.map Node.id = List.range g.nodes.length)) &&
  g.edges.all (fun e =>
    decide (e.from_node < g.nodes.length) &&
    decide (e.to_node < g.nodes.length) &&
    decide (¬ e.from_node = e.to_node))

/-- Modelled from the spec: the grid-fallback column count
`cols = ceil(sqrt(n))` (§4.4), computed as the least `c` with
`n ≤ c * c`.  The fallback generator itself is not present under
`src/`; only this spec description is available. -/
def gridCols (n : Nat) : Nat :=
  ((List.range (n + 1)).find? (fun c => n ≤ c * c)).getD n

/-- Modelled from the spec: the grid-fallback row count
`rows = ceil(n / cols)` (§4.4). -/
def gridRows (n : Nat) : Nat := (n + gridCols n - 1) / gridCols n

/-- Modelled from the spec: the grid-fallback generator of §4.4, which
is not present under `src/`.  Nodes are laid out row-major on a
`cols x rows` grid with spacing 5 and additive jitter, and every node
is connected to its right and lower grid neighbour; each edge is
labelled by `random.choice` from the facility set of the mode.  The
scenario of §8 disables jitter by passing a zero jitter stream. -/
def generate_grid_network (n : Nat) (mode : String) (jitter : Nat → ℚ × ℚ)
    (label : List String → Nat → String) : ModeGraph :=
  let cols := gridCols n
  let fac := facilityTypesFor mode
  let nodes := (List.range n).map (fun i =>
    { id := i
      position := (5 * ((i % cols : Nat) : ℚ) + (jitter i).1,
                   5 * ((i / cols : Nat) : ℚ) + (jitter i).2)
      node_type := "Intersection"
      physical_attributes := []
      turn_restrictions := [] : Node })
  let raw := (List.range n).foldl
    (fun acc i =>
      let acc1 := if i % cols + 1 < cols ∧ i + 1 < n then acc ++ [(i, i + 1)]
        else acc
      if i + cols < n then acc1 ++ [(i, i + cols)] else acc1) []
  let edges := raw.enum.map (fun p =>
    { id := p.1
      from_node := p.2.1
      to_node := p.2.2
      facility_type := label fac p.1
      physical_attributes := [] : EdgeRec })
  { mode := mode, nodes := nodes, edges := edges }

/-- Read a node dict object from the heap of dict objects; an address
is an index into the allocation list. -/
def heapRead (cells : List Node) (a : Nat) : Node := cells.getD a default

/-- Overwrite the `id` field of the dict object at address `a`,
modelling the statement `node["id"] = ...`. -/
def heapWriteId (cells : List Node) (a : Nat) (v : Nat) : List Node :=
  cells.set a { heapRead cells a with id := v }

/-- `[dict(node) for node in addrs]`: allocate a fresh copy of every
listed dict object, returning the new heap and the fresh addresses. -/
def allocCopies (cells : List Node) (addrs : List Nat) :
    List Node × List Nat :=
  addrs.foldl
    (fun st a => (st.1 ++ [heapRead st.1 a], st.2 ++ [st.1.length]))
    (cells, [])

/-- Heap-level `prune_nodes_for_mode`: the same control flow as the
pure model, but node dicts live on the heap and the comprehension
`[dict(node) for node in nodes ...]` allocates fresh copies. -/
def prune_nodes_for_mode_st (cells : List Node) (addrs : List Nat)
    (base_edges : List (Nat × Nat)) (removal_fraction : ℚ)
    (sample : List Nat → Nat → Finset Nat) :
    List Node × List Nat × List (Nat × Nat) :=
  if addrs.isEmpty ∨ removal_fraction ≤ 0 then
    let al := allocCopies cells addrs
    (al.1, al.2, base_edges)
  else
    let node_ids := addrs.map (fun a => (heapRead cells a).id)
    let remove_count :=
      min node_ids.length
        (Int.toNat (Int.floor ((node_ids.length : ℚ) * removal_fraction)))
    let removed_ids :=
      if remove_count = 0 then (∅ : Finset Nat)
      else sample node_ids remove_count
    let keep := addrs.filter (fun a => (heapRead cells a).id ∉ removed_ids)
    let al := allocCopies cells keep
    (al.1, al.2,
     base_edges.filter (fun e => e.1 ∉ removed_ids ∧ e.2 ∉ removed_ids))

/-- Heap-level `reindex_nodes_and_edges`: `filtered_nodes` are fresh
copies, and the loop `node["id"] = id_map[node["id"]]` mutates exactly
those fresh objects, reading the current heap at every step. -/
def reindex_nodes_and_edges_st (cells : List Node) (addrs : List Nat)
    (edges : List (Nat × Nat)) :
    List Node × List Nat × List (Nat × Nat) :=
  if edges.isEmpty then (cells, [], [])
  else
    let connected_ids := connectedIds edges
    let keep := addrs.filter (fun a => (heapRead cells a).id ∈ connected_ids)
    let al := allocCopies cells keep
    let id_map := al.2.enum.map (fun p => ((heapRead al.1 p.2).id, p.1))
    let cells2 := al.2.foldl
      (fun cc a =>
        heapWriteId cc a ((dictGet id_map (heapRead cc a).id).getD 0)) al.1
    let remapped_edges := edges.filterMap
      (fun e =>
        match dictGet id_map e.1, dictGet id_map e.2 with
        | some a, some b => some (a, b)
        | _, _ => none)
    (cells2, al.2, remapped_edges)

/-- Heap-level `generate_mode_graph`: the composition actually run
against the shared base node objects, returning the final heap
together with the surviving addresses and labelled edges. -/
def generate_mode_graph_st (mode : String) (cells : List Node)
    (addrs : List Nat) (base_edges : List (Nat × Nat)) (rnd : ModeRandom) :
    List Node × List Nat × List EdgeRec :=
  let facility_types := facilityTypesFor mode
  let pr := prune_nodes_for_mode_st cells addrs base_edges
      NODE_REMOVAL_FRACTION rnd.nodeSample
  let mode_edges_raw := knock_out_edges pr.2.2 EDGE_REMOVAL_FRACTION
      rnd.edgeSample
  let ri := reindex_nodes_and_edges_st pr.1 pr.2.1 mode_edges_raw
  let edges := ri.2.2.enum.map
    (fun p =>
      { id := p.1
        from_node := p.2.1
        to_node := p.2.2
        facility_type := rnd.label facility_types p.1
        physical_attributes := [] : EdgeRec })
  (ri.1, ri.2.1, edges)

/-- The loop invariant of the ridge loop of `build_base_graph`:
mapping values and node ids are the positions `0..len-1`, every
recorded edge came from a pair of distinct mapped coordinates whose
sorted key was recorded in `edge_seen`, and no two recorded edges
share an unordered endpoint pair. -/
def BBInv (st : BBState) : Prop :=
  st.node_mapping.map Prod.snd = List.range st.nodes.length
  ∧ st.nodes.map Node.id = List.range st.nodes.length
  ∧ (∀ e ∈ st.base_edges, ∃ c1 c2, ¬ c1 = c2
      ∧ dictGet st.node_mapping c1 = some e.1
      ∧ dictGet st.node_mapping c2 = some e.2
      ∧ sortPair c1 c2 ∈ st.edge_seen)
  ∧ List.Pairwise (fun e f => ¬ unorderedKeyN e = unorderedKeyN f)
      st.base_edges

/-- Four city-corner points, a concrete input for the relaxation
counterexample. -/
def ptsEx : List (ℚ × ℚ) := [(0, 0), (10, 0), (0, 10), (10, 10)]

/-- The Voronoi diagram scipy produces for the four corner points:
one finite vertex at the center and four unbounded regions. -/
def vorEx : VorDiagram :=
  { vertices := [(5, 5)]
    ridge_vertices := [(0, -1), (0, -1), (0, -1), (0, -1)]
    point_region := [0, 1, 2, 3]
    regions := [[0, -1], [0, -1], [0, -1], [0, -1]] }

/-- A helper to build plain intersection nodes in examples. -/
def mkNodeEx (i : Nat) (x y : ℚ) : Node :=
  { id := i
    position := (x, y)
    node_type := "Intersection"
    physical_attributes := []
    turn_restrictions := [] }

/-- Concrete node list for the Reindexer idempotence counterexample:
ids are exactly `0..2`. -/
def nodesEx8 : List Node := [mkNodeEx 0 0 0, mkNodeEx 1 1 0, mkNodeEx 2 2 0]

/-- Concrete edge list for the Reindexer idempotence counterexample:
every node is touched, but `(2, 5)` references the absent id `5`. -/
def edgesEx8 : List (Nat × Nat) := [(0, 1), (2, 5)]

/-- Trivial per-mode randomness used in witnesses: empty samples and a
`random.choice` that takes the head of the list. -/
def trivModeRandom : ModeRandom :=
  { nodeSample := fun _ _ => ∅
    edgeSample := fun _ _ => ∅
    label := fun l _ => l.headD ("") }

/-- Trivial oracles used in witnesses: the uniform draw always returns
`u = 1`, so every candidate is rejected and the pipeline runs on an
empty point set. -/
def trivOracles : Oracles :=
  { draw := fun _ => (0, 0, 1)
    sqrtQ := fun _ => 0
    voronoi := fun _ => { vertices := [], ridge_vertices := [],
                          point_region := [], regions := [] }
    modeRand := fun _ => trivModeRandom }

/-- Concrete five-edge list for the edge-knockout witness. -/
def edgesEx6 : List (Nat × Nat) := [(0, 1), (1, 2), (2, 3), (3, 4), (0, 2)]

/-- A concrete `random.sample` stand-in used in witnesses: pick the
first `k` elements of the population. -/
def sampleEx : List Nat → Nat → Finset Nat := fun pop k => (pop.take k).toFinset

theorem foldl_append_eq_map {α β : Type} (f : α → β) :
    ∀ (l : List α) (acc : List β),
      l.foldl (fun a x => a ++ [f x]) acc = acc ++ l.map f := by
  intro l
  induction l with
  | nil => intro acc; simp
  | cons x l ih => intro acc; simp [ih]

theorem mem_foldl_insert (edges : List (Nat × Nat)) :
    ∀ (init : Finset Nat) (x : Nat),
      (x ∈ edges.foldl (fun s e => insert e.1 (insert e.2 s)) init
        ↔ x ∈ init ∨ ∃ e ∈ edges, x = e.1 ∨ x = e.2) := by
  induction edges with
  | nil => intro init x; simp
  | cons e es ih =>
    intro init x
    simp only [List.foldl_cons, ih, Finset.mem_insert, List.mem_cons]
    constructor
    · rintro ((rfl | rfl | hx) | ⟨f, hf, hor⟩)
      · exact Or.inr ⟨e, Or.inl rfl, Or.inl rfl⟩
      · exact Or.inr ⟨e, Or.inl rfl, Or.inr rfl⟩
      · exact Or.inl hx
      · exact Or.inr ⟨f, Or.inr hf, hor⟩
    · rintro (hx | ⟨f, (rfl | hf), hor⟩)
      · exact Or.inl (Or.inr (Or.inr hx))
      · rcases hor with rfl | rfl
        · exact Or.inl (Or.inl rfl)
        · exact Or.inl (Or.inr (Or.inl rfl))
      · exact Or.inr ⟨f, hf, hor⟩

theorem mem_connectedIds (edges : List (Nat × Nat)) (x : Nat) :
    x ∈ connectedIds edges ↔ ∃ e ∈ edges, x = e.1 ∨ x = e.2 := by
  unfold connectedIds
  rw [mem_foldl_insert]
  simp

theorem endpoint_fst_mem_connectedIds {edges : List (Nat × Nat)}
    {e : Nat × Nat} (he : e ∈ edges) : e.1 ∈ connectedIds edges :=
  (mem_connectedIds edges e.1).mpr ⟨e, he, Or.inl rfl⟩

theorem endpoint_snd_mem_connectedIds {edges : List (Nat × Nat)}
    {e : Nat × Nat} (he : e ∈ edges) : e.2 ∈ connectedIds edges :=
  (mem_connectedIds edges e.2).mpr ⟨e, he, Or.inr rfl⟩

theorem idMap_map_snd (l : List Node) :
    (l.enum.map (fun p => (p.2.id, p.1))).map Prod.snd
      = List.range l.length := by
  rw [List.map_map]
  have : (Prod.snd ∘ fun p : Nat × Node => (p.2.id, p.1)) = Prod.fst := by
    funext p; rfl
  rw [this, List.enum_map_fst]

theorem idMap_map_fst (l : List Node) :
    (l.enum.map (fun p => (p.2.id, p.1))).map Prod.fst = l.map Node.id := by
  rw [List.map_map]
  have : (Prod.fst ∘ fun p : Nat × Node => (p.2.id, p.1))
      = Node.id ∘ Prod.snd := by
    funext p; rfl
  rw [this, ← List.map_map, List.enum_map_snd]

theorem dictGet_enumFrom_idMap :
    ∀ (l : List Node) (k0 : Nat), (l.map Node.id).Nodup →
      ∀ (i : Nat) (h : i < l.length),
        dictGet ((l.enumFrom k0).map (fun p => (p.2.id, p.1)))
            (l.get ⟨i, h⟩).id
          = some (k0 + i) := by
  intro l
  induction l with
  | nil => intro k0 _ i h; simp at h
  | cons nd t ih =>
    intro k0 hnd i h
    have hnd1 : nd.id ∉ t.map Node.id := (List.nodup_cons.mp hnd).1
    have hnd2 : (t.map Node.id).Nodup := (List.nodup_cons.mp hnd).2
    cases i with
    | zero =>
      have hnone :
          dictGet ((t.enumFrom (k0 + 1)).map (fun p => (p.2.id, p.1)))
            nd.id = none := by
        rw [dictGet_eq_none_iff]
        intro p hp hpk
        apply hnd1
        have : p.1 ∈ ((t.enumFrom (k0 + 1)).map
            (fun p => (p.2.id, p.1))).map Prod.fst :=
          List.mem_map_of_mem Prod.fst hp
        rw [List.map_map] at this
        have hkeys : (Prod.fst ∘ fun p : Nat × Node => (p.2.id, p.1))
            = Node.id ∘ Prod.snd := by funext q; rfl
        rw [hkeys, ← List.map_map, List.enumFrom_map_snd] at this
        exact hpk ▸ this
      simp only [List.enumFrom, List.map_cons, List.get, dictGet, hnone]
      simp
    | succ j =>
      have hj : j < t.length := by simpa using h
      have := ih (k0 + 1) hnd2 j hj
      simp only [List.enumFrom, List.map_cons, List.get, dictGet, this]
      congr 1
      omega

theorem filtered_nodes_nodup {nodes : List Node} {edges : List (Nat × Nat)}
    (h : (nodes.map Node.id).Nodup) :
    ((filtered_nodes_of nodes edges).map Node.id).Nodup :=
  h.sublist (List.Sublist.map Node.id (List.filter_sublist nodes))

theorem id_map_of_map_snd (nodes : List Node) (edges : List (Nat × Nat)) :
    (id_map_of nodes edges).map Prod.snd
      = List.range (filtered_nodes_of nodes edges).length :=
  idMap_map_snd (filtered_nodes_of nodes edges)

theorem id_map_of_map_fst (nodes : List Node) (edges : List (Nat × Nat)) :
    (id_map_of nodes edges).map Prod.fst
      = (filtered_nodes_of nodes edges).map Node.id :=
  idMap_map_fst (filtered_nodes_of nodes edges)

theorem dictGet_id_map_lt {nodes : List Node} {edges : List (Nat × Nat)}
    {k v : Nat} (h : dictGet (id_map_of nodes edges) k = some v) :
    v < (filtered_nodes_of nodes edges).length := by
  have hv := dictGet_val_mem h
  rw [id_map_of_map_snd] at hv
  exact List.mem_range.mp hv

theorem dictGet_id_map_isSome_iff (nodes : List Node)
    (edges : List (Nat × Nat)) (k : Nat) :
    (dictGet (id_map_of nodes edges) k).isSome = true
      ↔ k ∈ (filtered_nodes_of nodes edges).map Node.id := by
  rw [dictGet_isSome_iff, id_map_of_map_fst]

theorem mem_filtered_ids_iff (nodes : List Node) (edges : List (Nat × Nat))
    (k : Nat) :
    k ∈ (filtered_nodes_of nodes edges).map Node.id
      ↔ k ∈ nodes.map Node.id ∧ k ∈ connectedIds edges := by
  unfold filtered_nodes_of
  constructor
  · intro h
    rcases List.mem_map.mp h with ⟨nd, hnd, rfl⟩
    have hm := List.mem_filter.mp hnd
    refine ⟨List.mem_map_of_mem _ hm.1, ?_⟩
    simpa using hm.2
  · rintro ⟨h1, h2⟩
    rcases List.mem_map.mp h1 with ⟨nd, hnd, rfl⟩
    exact List.mem_map_of_mem _ (List.mem_filter.mpr ⟨hnd, by simpa using h2⟩)

theorem remapEdge_isSome_iff (M : List (Nat × Nat)) (e : Nat × Nat) :
    (remapEdge M e).isSome = true
      ↔ (dictGet M e.1).isSome = true ∧ (dictGet M e.2).isSome = true := by
  unfold remapEdge
  cases h1 : dictGet M e.1 <;> cases h2 : dictGet M e.2 <;> simp

theorem length_filterMap_eq_length_filter {α β : Type} (F : α → Option β)
    (P : α → Bool) :
    ∀ l : List α, (∀ a ∈ l, (F a).isSome = P a) →
      (l.filterMap F).length = (l.filter P).length := by
  intro l
  induction l with
  | nil => intro _; rfl
  | cons a l ih =>
    intro h
    have ha := h a (List.mem_cons_self a l)
    have ht := ih (fun b hb => h b (List.mem_cons_of_mem a hb))
    cases hF : F a with
    | none =>
      rw [hF] at ha
      simp only [List.filterMap_cons, hF, List.filter_cons, ← ha]
      simpa using ht
    | some b =>
      rw [hF] at ha
      simp only [List.filterMap_cons, hF, List.filter_cons, ← ha]
      simpa using ht

/-- Claim C10: `reindex_nodes_and_edges` is total on arbitrary input;
every output edge has both endpoints below the output node count, and
exactly the input edges whose endpoints both occur among the node ids
survive (dangling edges are dropped, not remapped). -/
theorem claim_C10 (nodes : List Node) (edges : List (Nat × Nat)) :
    ((reindex_nodes_and_edges nodes edges).2.all fun e =>
        decide (e.1 < (reindex_nodes_and_edges nodes edges).1.length) &&
        decide (e.2 < (reindex_nodes_and_edges nodes edges).1.length)) = true
    ∧ (reindex_nodes_and_edges nodes edges).2.length
      = (edges.filter fun e =>
          decide (e.1 ∈ nodes.map Node.id) &&
          decide (e.2 ∈ nodes.map Node.id)).length := by
  by_cases hemp : edges.isEmpty
  · have : edges = [] := List.isEmpty_iff.mp hemp
    subst this
    simp [reindex_nodes_and_edges]
  · have hne : ¬ edges.isEmpty = true := hemp
    unfold reindex_nodes_and_edges
    rw [if_neg (by simpa using hne)]
    constructor
    · rw [List.all_eq_true]
      intro e he
      rcases List.mem_filterMap.mp he with ⟨f, _, hf⟩
      unfold remapEdge at hf
      cases h1 : dictGet (id_map_of nodes edges) f.1 with
      | none => rw [h1] at hf; simp at hf
      | some a =>
        cases h2 : dictGet (id_map_of nodes edges) f.2 with
        | none => rw [h1, h2] at hf; simp at hf
        | some b =>
          rw [h1, h2] at hf
          have hab : e = (a, b) := by
            simpa using hf.symm
          subst hab
          have la := dictGet_id_map_lt h1
          have lb := dictGet_id_map_lt h2
          simp only [List.length_map]
          exact by
            simp only [Bool.and_eq_true, decide_eq_true_eq]
            exact ⟨la, lb⟩
    · apply length_filterMap_eq_length_filter
      intro e he
      rw [Bool.eq_iff_iff]
      rw [remapEdge_isSome_iff]
      rw [dictGet_id_map_isSome_iff, dictGet_id_map_isSome_iff]
      rw [mem_filtered_ids_iff, mem_filtered_ids_iff]
      have h1 := endpoint_fst_mem_connectedIds he
      have h2 := endpoint_snd_mem_connectedIds he
      simp only [Bool.and_eq_true, decide_eq_true_eq]
      constructor
      · rintro ⟨⟨a1, _⟩, ⟨a2, _⟩⟩
        exact ⟨a1, a2⟩
      · rintro ⟨a1, a2⟩
        exact ⟨⟨a1, h1⟩, ⟨a2, h2⟩⟩

theorem length_filter_enumFrom_notMem {α : Type} :
    ∀ (l : List α) (k : Nat) (s : Finset Nat),
      ((l.enumFrom k).filter (fun p => p.1 ∉ s)).length
        + ((List.range' k l.length).filter (fun i => i ∈ s)).length
        = l.length := by
  intro l
  induction l with
  | nil => intro k s; simp
  | cons a l ih =>
    intro k s
    have hr : List.range' k (l.length + 1)
        = k :: List.range' (k + 1) l.length := by
      simp [List.range'_succ]
    simp only [List.enumFrom, List.filter_cons, List.length_cons, hr]
    by_cases hk : k ∈ s
    · simp only [hk]
      simp only [decide_True, not_true_eq_false, decide_False,
        Bool.false_eq_true, if_false, if_true, List.length_cons]
      have := ih (k + 1) s
      omega
    · simp only [hk]
      simp only [decide_False, not_false_eq_true, decide_True,
        Bool.false_eq_true, if_false, if_true, List.length_cons]
      have := ih (k + 1) s
      omega

theorem length_filter_range_mem (s : Finset Nat) (E : Nat)
    (hs : s ⊆ Finset.range E) :
    ((List.range E).filter (fun i => i ∈ s)).length = s.card := by
  have hnd : ((List.range E).filter (fun i => i ∈ s)).Nodup :=
    (List.nodup_range E).filter _
  have hfin : ((List.range E).filter (fun i => i ∈ s)).toFinset = s := by
    ext x
    simp only [List.mem_toFinset, List.mem_filter, List.mem_range,
      decide_eq_true_eq]
    constructor
    · rintro ⟨_, hx⟩; exact hx
    · intro hx
      exact ⟨Finset.mem_range.mp (hs hx), hx⟩
  calc ((List.range E).filter (fun i => i ∈ s)).length
      = ((List.range E).filter (fun i => i ∈ s)).toFinset.card :=
        (List.toFinset_card_of_nodup hnd).symm
    _ = s.card := by rw [hfin]

/-- Claim C6: with an edge-removal fraction in `[0, 1)` and the
`random.sample` contract (the sampled index set has the requested size
and lies inside the index range), `knock_out_edges` removes exactly
`floor(E * f)` edges. -/
theorem claim_C6 (edges : List (Nat × Nat)) (f : ℚ)
    (s : List Nat → Nat → Finset Nat) (h0 : 0 ≤ f) (h1 : f < 1)
    (hcard : (s (List.range edges.length)
        (min edges.length (Int.toNat (Int.floor ((edges.length : ℚ) * f))))).card
      = min edges.length (Int.toNat (Int.floor ((edges.length : ℚ) * f))))
    (hsub : s (List.range edges.length)
        (min edges.length (Int.toNat (Int.floor ((edges.length : ℚ) * f))))
      ⊆ Finset.range edges.length) :
    (knock_out_edges edges f s).length
      = edges.length - Int.toNat (Int.floor ((edges.length : ℚ) * f)) := by
  by_cases hemp : edges.isEmpty
  · have : edges = [] := List.isEmpty_iff.mp hemp
    subst this
    simp [knock_out_edges]
  · by_cases hf0 : f ≤ 0
    · have hf : f = 0 := le_antisymm hf0 h0
      subst hf
      unfold knock_out_edges
      rw [if_pos (Or.inr le_rfl)]
      simp
    · have hlen : 0 < edges.length := by
        cases edges with
        | nil => exact absurd rfl hemp
        | cons e es => simp
      have hfpos : 0 < f := lt_of_not_le hf0
      have hql : ((edges.length : ℚ) * f) < (edges.length : ℚ) := by
        have : (0 : ℚ) < (edges.length : ℚ) := by exact_mod_cast hlen
        calc (edges.length : ℚ) * f < (edges.length : ℚ) * 1 := by
              exact mul_lt_mul_of_pos_left h1 this
          _ = (edges.length : ℚ) := mul_one _
      have hfl : Int.floor ((edges.length : ℚ) * f) < (edges.length : ℤ) :=
        Int.floor_lt.mpr (by exact_mod_cast hql)
      have hfl0 : 0 ≤ Int.floor ((edges.length : ℚ) * f) :=
        Int.floor_nonneg.mpr (mul_nonneg (by positivity) h0)
      have hmin : min edges.length
          (Int.toNat (Int.floor ((edges.length : ℚ) * f)))
          = Int.toNat (Int.floor ((edges.length : ℚ) * f)) := by
        omega
      unfold knock_out_edges
      rw [if_neg (by
        push_neg
        exact ⟨by simpa using hemp, lt_of_not_le hf0⟩)]
      simp only [hmin]
      set rc := Int.toNat (Int.floor ((edges.length : ℚ) * f)) with hrc
      by_cases hrc0 : rc = 0
      · rw [if_pos hrc0, hrc0]
        simp only [List.length_map, Nat.sub_zero]
        have hself : edges.enum.filter (fun p => p.1 ∉ (∅ : Finset Nat))
            = edges.enum := by
          apply List.filter_eq_self.mpr
          intro p _
          simp
        rw [hself, List.enum_length]
      · rw [if_neg hrc0]
        rw [hmin] at hcard hsub
        have hmain := length_filter_enumFrom_notMem edges 0
          (s (List.range edges.length) rc)
        have hcnt : ((List.range' 0 edges.length).filter
            (fun i => i ∈ s (List.range edges.length) rc)).length = rc := by
          rw [← List.range_eq_range']
          rw [length_filter_range_mem _ _ hsub]
          exact hcard
        simp only [List.length_map]
        simp only [List.enum] at hmain ⊢
        omega

theorem sample_loop_length_le (n : Nat) (w h : ℚ) (draw : Nat → ℚ × ℚ × ℚ)
    (sq : ℚ → ℚ) :
    ∀ (fuel attempt : Nat) (pts : List (ℚ × ℚ)), pts.length ≤ n →
      (sample_loop n w h draw sq attempt fuel pts).length ≤ n := by
  intro fuel
  induction fuel with
  | zero => intro attempt pts hp; simpa [sample_loop] using hp
  | succ fuel ih =>
    intro attempt pts hp
    simp only [sample_loop]
    by_cases hlt : pts.length < n
    · simp only [if_pos hlt]
      split
      · exact ih _ _ (by simp only [List.length_append, List.length_cons,
          List.length_nil]; omega)
      · exact ih _ _ hp
    · simp only [if_neg hlt]
      exact hp

theorem sample_loop_congr (n : Nat) (w h : ℚ)
    (draw draw' : Nat → ℚ × ℚ × ℚ) (sq : ℚ → ℚ) :
    ∀ (fuel attempt : Nat) (pts : List (ℚ × ℚ)),
      (∀ i, attempt ≤ i → i < attempt + fuel → draw i = draw' i) →
      sample_loop n w h draw sq attempt fuel pts
        = sample_loop n w h draw' sq attempt fuel pts := by
  intro fuel
  induction fuel with
  | zero => intro attempt pts _; rfl
  | succ fuel ih =>
    intro attempt pts hag
    have hd : draw attempt = draw' attempt := hag attempt le_rfl (by omega)
    simp only [sample_loop, hd]
    by_cases hlt : pts.length < n
    · simp only [if_pos hlt]
      split
      · exact ih (attempt + 1) _ (fun i h1 h2 => hag i (by omega) (by omega))
      · exact ih (attempt + 1) _ (fun i h1 h2 => hag i (by omega) (by omega))
    · simp only [if_neg hlt]

/-- Claim C5: the point sampler accepts at most `n` points, and its
result depends only on the first `n * 50` uniform draws, i.e. the loop
makes at most `n * 50` candidate attempts; budget exhaustion yields
the accepted prefix rather than an error (the function is total). -/
theorem claim_C5 (n : Nat) (w h : ℚ) (draw draw' : Nat → ℚ × ℚ × ℚ)
    (sq : ℚ → ℚ) (hn : 0 < n)
    (hag : ∀ i, i < n * 50 → draw i = draw' i) :
    (sample_phase n w h draw sq).length ≤ n
    ∧ sample_phase n w h draw sq = sample_phase n w h draw' sq :=
  ⟨sample_loop_length_le n w h draw sq (n * 50) 0 [] (by simp),
   sample_loop_congr n w h draw draw' sq (n * 50) 0 []
     (fun i _ h2 => hag i (by simpa using h2))⟩

theorem claim_C5_witness :
    0 < 1
    ∧ ((sample_phase 1 1 1 (fun _ => (0, 0, 1)) (fun _ => 0)).length ≤ 1
      ∧ sample_phase 1 1 1 (fun _ => (0, 0, 1)) (fun _ => 0)
        = sample_phase 1 1 1 (fun _ => (0, 0, 1)) (fun _ => 0)) :=
  ⟨Nat.one_pos,
   claim_C5 1 1 1 (fun _ => (0, 0, 1)) (fun _ => (0, 0, 1)) (fun _ => 0)
     Nat.one_pos (fun _ _ => rfl)⟩

theorem relax_step_eq_map (pts : List (ℚ × ℚ)) (vor : VorDiagram)
    (w h : ℚ) :
    relax_step pts vor w h
      = vor.point_region.enum.map (relaxOne pts vor w h) := by
  unfold relax_step
  simpa using foldl_append_eq_map (relaxOne pts vor w h)
    vor.point_region.enum []

/-- Claim C3, amended: the relaxation iteration of
`generate_network.py` preserves the cardinality of the point set
(given the scipy guarantee that `point_region` has one entry per
input point), keeps any point with an unbounded or empty region
unchanged, and replaces every other point by the centroid of its
region vertices exactly when that centroid lies inside the rectangle,
keeping it unchanged otherwise.  The older `voronoi.py` variant does
not preserve cardinality; see the counterexample. -/
theorem claim_C3 (pts : List (ℚ × ℚ)) (vor : VorDiagram) (w h : ℚ)
    (hlen : vor.point_region.length = pts.length) :
    (relax_step pts vor w h).length = pts.length
    ∧ (∀ idx : Nat, idx < pts.length →
        ((-1 : Int) ∈ vor.regions.getD (vor.point_region.getD idx 0) []
          ∨ vor.regions.getD (vor.point_region.getD idx 0) [] = []) →
        (relax_step pts vor w h).getD idx (0, 0) = pts.getD idx (0, 0))
    ∧ (∀ idx : Nat, idx < pts.length →
        ¬((-1 : Int) ∈ vor.regions.getD (vor.point_region.getD idx 0) []
          ∨ vor.regions.getD (vor.point_region.getD idx 0) [] = []) →
        (relax_step pts vor w h).getD idx (0, 0)
          = (let centroid := mean_point
                ((vor.regions.getD (vor.point_region.getD idx 0) []).map
                  (fun i => vor.vertices.getD i.toNat (0, 0)))
             if 0 ≤ centroid.1 ∧ centroid.1 ≤ w ∧ 0 ≤ centroid.2
                 ∧ centroid.2 ≤ h
             then centroid else pts.getD idx (0, 0))) := by
  rw [relax_step_eq_map]
  have hred : ∀ idx : Nat, idx < pts.length →
      (vor.point_region.enum.map (relaxOne pts vor w h)).getD idx (0, 0)
        = relaxOne pts vor w h (idx, vor.point_region.getD idx 0) := by
    intro idx hidx
    have hidx2 : idx < vor.point_region.enum.length := by
      rw [List.enum_length, hlen]; exact hidx
    rw [List.getD_eq_getElem _ _ (by simpa using hidx2)]
    rw [List.getElem_map]
    rw [List.getElem_enum]
    have hpr : vor.point_region[idx] = vor.point_region.getD idx 0 := by
      rw [List.getD_eq_getElem _ _ (by rw [hlen]; exact hidx)]
    rw [hpr]
  refine ⟨?_, ?_, ?_⟩
  · rw [List.length_map, List.enum_length, hlen]
  · intro idx hidx hreg
    rw [hred idx hidx]
    unfold relaxOne
    rw [if_pos hreg]
  · intro idx hidx hreg
    rw [hred idx hidx]
    unfold relaxOne
    rw [if_neg hreg]

/-- Claim C3 counterexample: on the four corner points, whose Voronoi
regions are all unbounded, the relaxation loop of `voronoi.py` drops
every point, so an iteration does not preserve cardinality. -/
theorem claim_C3_counterexample :
    ptsEx.length = 4 ∧ (relax_step_legacy ptsEx vorEx 10 10).length = 0 := by
  constructor
  · rfl
  · rfl

theorem claim_C3_witness :
    vorEx.point_region.length = ptsEx.length
    ∧ ((relax_step ptsEx vorEx 10 10).length = ptsEx.length
      ∧ (∀ idx : Nat, idx < ptsEx.length →
          ((-1 : Int) ∈ vorEx.regions.getD (vorEx.point_region.getD idx 0) []
            ∨ vorEx.regions.getD (vorEx.point_region.getD idx 0) [] = []) →
          (relax_step ptsEx vorEx 10 10).getD idx (0, 0)
            = ptsEx.getD idx (0, 0))
      ∧ (∀ idx : Nat, idx < ptsEx.length →
          ¬((-1 : Int) ∈ vorEx.regions.getD (vorEx.point_region.getD idx 0) []
            ∨ vorEx.regions.getD (vorEx.point_region.getD idx 0) [] = []) →
          (relax_step ptsEx vorEx 10 10).getD idx (0, 0)
            = (let centroid := mean_point
                  ((vorEx.regions.getD (vorEx.point_region.getD idx 0) []).map
                    (fun i => vorEx.vertices.getD i.toNat (0, 0)))
               if 0 ≤ centroid.1 ∧ centroid.1 ≤ 10 ∧ 0 ≤ centroid.2
                   ∧ centroid.2 ≤ 10
               then centroid else ptsEx.getD idx (0, 0)))) :=
  ⟨rfl, claim_C3 ptsEx vorEx 10 10 rfl⟩

theorem facilityTypesFor_ne_nil (mode : String) :
    facilityTypesFor mode ≠ [] := by
  unfold facilityTypesFor
  cases h : dictGet facility_types_by_mode mode with
  | none => simp
  | some l =>
    have hv := dictGet_val_mem h
    simp only [facility_types_by_mode, List.map_cons, List.map_nil,
      List.mem_cons, List.not_mem_nil, or_false] at hv
    rcases hv with rfl | rfl | rfl | rfl <;> simp

/-- Claim C9: mode-graph derivation is total for every mode label;
every produced edge carries a facility type from the allowed set of
the mode (assuming only the `random.choice` membership contract), and
an unrecognized mode label resolves to the fallback set
`["Generic"]`. -/
theorem claim_C9 (mode : String) (nodes : List Node)
    (base_edges : List (Nat × Nat)) (rnd : ModeRandom)
    (hl : ∀ i, rnd.label (facilityTypesFor mode) i ∈ facilityTypesFor mode) :
    (∀ e ∈ (generate_mode_graph mode nodes base_edges rnd).edges,
        e.facility_type ∈ facilityTypesFor mode)
    ∧ (mode ∉ facility_types_by_mode.map Prod.fst →
        facilityTypesFor mode = ["Generic"]) := by
  constructor
  · intro e he
    simp only [generate_mode_graph] at he
    rcases List.mem_map.mp he with ⟨p, _, rfl⟩
    exact hl p.1
  · intro hmode
    unfold facilityTypesFor
    have hnone : dictGet facility_types_by_mode mode = none := by
      rw [dictGet_eq_none_iff]
      intro p hp hpk
      exact hmode (hpk ▸ List.mem_map_of_mem Prod.fst hp)
    rw [hnone]
    rfl

theorem claim_C9_witness :
    (∀ e ∈ (generate_mode_graph ("Zeppelin") [] [] trivModeRandom).edges,
        e.facility_type ∈ facilityTypesFor ("Zeppelin"))
    ∧ (("Zeppelin") ∉ facility_types_by_mode.map Prod.fst →
        facilityTypesFor ("Zeppelin") = ["Generic"]) :=
  claim_C9 ("Zeppelin") [] [] trivModeRandom
    (fun _ => List.mem_cons_self _ _)

/-- Claim C2 (grid fallback, modelled from the spec): with `n = 4`,
mode `"Walk"` and jitter disabled, the generator produces a 2 by 2
grid with row-major ids at positions `(0,0), (5,0), (0,5), (5,5)`,
exactly the four lattice edges, and walk facility labels. -/
theorem claim_C2 (label : List String → Nat → String)
    (hl : ∀ i, label (facilityTypesFor ("Walk")) i
        ∈ facilityTypesFor ("Walk")) :
    gridCols 4 = 2 ∧ gridRows 4 = 2
    ∧ (generate_grid_network 4 ("Walk") (fun _ => (0, 0)) label).nodes.map
        (fun nd => (nd.id, nd.position))
      = [(0, (0, 0)), (1, (5, 0)), (2, (0, 5)), (3, (5, 5))]
    ∧ (generate_grid_network 4 ("Walk") (fun _ => (0, 0)) label).edges.map
        (fun e => (e.from_node, e.to_node))
      = [(0, 1), (0, 2), (1, 3), (2, 3)]
    ∧ ∀ e ∈ (generate_grid_network 4 ("Walk") (fun _ => (0, 0)) label).edges,
        e.facility_type ∈ ["Sidewalk", "SharedUsePath", "Trail"] := by
  refine ⟨rfl, rfl, ?_, rfl, ?_⟩
  · have hr : List.range 4 = [0, 1, 2, 3] := rfl
    have hc : gridCols 4 = 2 := rfl
    simp only [generate_grid_network, hr, hc, List.map_cons, List.map_nil]
    norm_num
  · intro e he
    simp only [generate_grid_network] at he
    rcases List.mem_map.mp he with ⟨p, _, rfl⟩
    exact hl p.1

theorem claim_C2_witness :
    gridCols 4 = 2 ∧ gridRows 4 = 2
    ∧ (generate_grid_network 4 ("Walk") (fun _ => (0, 0))
        (fun l _ => l.headD (""))).nodes.map (fun nd => (nd.id, nd.position))
      = [(0, (0, 0)), (1, (5, 0)), (2, (0, 5)), (3, (5, 5))]
    ∧ (generate_grid_network 4 ("Walk") (fun _ => (0, 0))
        (fun l _ => l.headD (""))).edges.map (fun e => (e.from_node, e.to_node))
      = [(0, 1), (0, 2), (1, 3), (2, 3)]
    ∧ ∀ e ∈ (generate_grid_network 4 ("Walk") (fun _ => (0, 0))
        (fun l _ => l.headD (""))).edges,
        e.facility_type ∈ ["Sidewalk", "SharedUsePath", "Trail"] :=
  claim_C2 (fun l _ => l.headD ("")) (fun _ => List.mem_cons_self _ _)

theorem filterMap_id_of {α : Type} (F : α → Option α) :
    ∀ l : List α, (∀ a ∈ l, F a = some a) → l.filterMap F = l := by
  intro l
  induction l with
  | nil => intro _; rfl
  | cons a l ih =>
    intro h
    rw [List.filterMap_cons, h a (List.mem_cons_self a l)]
    rw [ih (fun b hb => h b (List.mem_cons_of_mem a hb))]

theorem nodes_get_id_eq {nodes : List Node}
    (hids : nodes.map Node.id = List.range nodes.length)
    (i : Nat) (h : i < nodes.length) : (nodes.get ⟨i, h⟩).id = i := by
  have h1 : (nodes.map Node.id)[i]? = (List.range nodes.length)[i]? := by
    rw [hids]
  have h4 : nodes[i]? = some (nodes.get ⟨i, h⟩) := List.getElem?_eq_getElem h
  simp only [List.getElem?_map, h4, List.getElem?_range h] at h1
  simpa using h1

/-- On input whose node ids are already the positions, with every node
touched by an edge and every edge endpoint a valid node id,
`reindex_nodes_and_edges` is the identity. -/
theorem reindex_fixpoint (nodes : List Node) (edges : List (Nat × Nat))
    (hids : nodes.map Node.id = List.range nodes.length)
    (htouch : ∀ nd ∈ nodes, ∃ e ∈ edges, nd.id = e.1 ∨ nd.id = e.2)
    (hends : ∀ e ∈ edges, e.1 ∈ nodes.map Node.id ∧ e.2 ∈ nodes.map Node.id) :
    reindex_nodes_and_edges nodes edges = (nodes, edges) := by
  by_cases hemp : edges.isEmpty
  · have hedges : edges = [] := List.isEmpty_iff.mp hemp
    subst hedges
    have hnodes : nodes = [] := by
      cases nodes with
      | nil => rfl
      | cons nd t =>
        obtain ⟨e, he, _⟩ := htouch nd (List.mem_cons_self nd t)
        exact absurd he (List.not_mem_nil e)
    subst hnodes
    rfl
  · have hnodup : (nodes.map Node.id).Nodup := by
      rw [hids]; exact List.nodup_range _
    have hfil : filtered_nodes_of nodes edges = nodes := by
      unfold filtered_nodes_of
      apply List.filter_eq_self.mpr
      intro nd hnd
      obtain ⟨e, he, hor⟩ := htouch nd hnd
      have : nd.id ∈ connectedIds edges :=
        (mem_connectedIds edges nd.id).mpr ⟨e, he, hor⟩
      simpa using this
    have hmap : id_map_of nodes edges
        = nodes.enum.map (fun p => (p.2.id, p.1)) := by
      unfold id_map_of
      rw [hfil]
    have hlook : ∀ (i : Nat) (h : i < nodes.length),
        dictGet (id_map_of nodes edges) (nodes.get ⟨i, h⟩).id = some i := by
      intro i h
      rw [hmap]
      have := dictGet_enumFrom_idMap nodes 0 hnodup i h
      simpa using this
    have hlook2 : ∀ k, k ∈ nodes.map Node.id →
        dictGet (id_map_of nodes edges) k = some k := by
      intro k hk
      rw [hids] at hk
      have hklt : k < nodes.length := List.mem_range.mp hk
      have hid := nodes_get_id_eq hids k hklt
      have := hlook k hklt
      rw [hid] at this
      exact this
    unfold reindex_nodes_and_edges
    rw [if_neg (by simpa using hemp)]
    rw [Prod.mk.injEq]
    constructor
    · rw [hfil]
      have hpt : ∀ nd ∈ nodes,
          ({ nd with
              id := (dictGet (id_map_of nodes edges) nd.id).getD nd.id } :
            Node) = nd := by
        intro nd hnd
        rw [hlook2 nd.id (List.mem_map_of_mem Node.id hnd)]
        rfl
      calc nodes.map (fun nd =>
              ({ nd with
                  id := (dictGet (id_map_of nodes edges) nd.id).getD nd.id } :
                Node))
          = nodes.map id := List.map_congr_left hpt
        _ = nodes := List.map_id nodes
    · apply filterMap_id_of
      intro e he
      unfold remapEdge
      rw [hlook2 e.1 (hends e he).1, hlook2 e.2 (hends e he).2]

/-- Claim C8 counterexample: a node list with ids exactly `0..2`,
every node touched by an edge, on which the Reindexer is not
idempotent — the edge `(2, 5)` references a missing id, is dropped by
the first pass, and leaves node `2` isolated for the second pass. -/
theorem claim_C8_counterexample :
    nodesEx8.map Node.id = List.range nodesEx8.length
    ∧ (∀ nd ∈ nodesEx8, ∃ e ∈ edgesEx8, nd.id = e.1 ∨ nd.id = e.2)
    ∧ reindex_nodes_and_edges
        (reindex_nodes_and_edges nodesEx8 edgesEx8).1
        (reindex_nodes_and_edges nodesEx8 edgesEx8).2
      ≠ reindex_nodes_and_edges nodesEx8 edgesEx8 := by
  refine ⟨rfl, by decide, by decide⟩

/-- Claim C8, amended: on already-contiguous input in which every node
is touched by at least one edge and every edge endpoint is the id of a
listed node, the Reindexer is the identity, hence idempotent. -/
theorem claim_C8 (nodes : List Node) (edges : List (Nat × Nat))
    (hids : nodes.map Node.id = List.range nodes.length)
    (htouch : ∀ nd ∈ nodes, ∃ e ∈ edges, nd.id = e.1 ∨ nd.id = e.2)
    (hends : ∀ e ∈ edges, e.1 ∈ nodes.map Node.id ∧ e.2 ∈ nodes.map Node.id) :
    reindex_nodes_and_edges (reindex_nodes_and_edges nodes edges).1
        (reindex_nodes_and_edges nodes edges).2
      = reindex_nodes_and_edges nodes edges := by
  have hfix := reindex_fixpoint nodes edges hids htouch hends
  rw [hfix]
  exact hfix

theorem claim_C8_witness :
    ([mkNodeEx 0 0 0, mkNodeEx 1 1 0].map Node.id
      = List.range [mkNodeEx 0 0 0, mkNodeEx 1 1 0].length)
    ∧ (∀ nd ∈ [mkNodeEx 0 0 0, mkNodeEx 1 1 0],
        ∃ e ∈ [((0 : Nat), (1 : Nat))], nd.id = e.1 ∨ nd.id = e.2)
    ∧ reindex_nodes_and_edges
        (reindex_nodes_and_edges [mkNodeEx 0 0 0, mkNodeEx 1 1 0]
          [((0 : Nat), (1 : Nat))]).1
        (reindex_nodes_and_edges [mkNodeEx 0 0 0, mkNodeEx 1 1 0]
          [((0 : Nat), (1 : Nat))]).2
      = reindex_nodes_and_edges [mkNodeEx 0 0 0, mkNodeEx 1 1 0]
          [((0 : Nat), (1 : Nat))] :=
  ⟨rfl, by decide,
   claim_C8 [mkNodeEx 0 0 0, mkNodeEx 1 1 0] [((0 : Nat), (1 : Nat))]
     rfl (by decide) (by decide)⟩

theorem pairLt_asymm {a b : ℚ × ℚ} (h : pairLt a b) : ¬ pairLt b a := by
  intro h2
  unfold pairLt at h h2
  rcases h with h1 | ⟨h1a, h1b⟩ <;> rcases h2 with h2 | ⟨h2a, h2b⟩ <;> linarith

theorem pairLt_total {a b : ℚ × ℚ} (h1 : ¬ pairLt a b) (h2 : ¬ pairLt b a) :
    a = b := by
  unfold pairLt at h1 h2
  push_neg at h1 h2
  obtain ⟨h1a, h1b⟩ := h1
  obtain ⟨h2a, h2b⟩ := h2
  have hfst : a.1 = b.1 := le_antisymm h2a h1a
  have hsnd : a.2 = b.2 := le_antisymm (h2b hfst.symm) (h1b hfst)
  exact Prod.ext_iff.mpr ⟨hfst, hsnd⟩

theorem sortPair_comm {a b : ℚ × ℚ} (hne : ¬ a = b) :
    sortPair a b = sortPair b a := by
  unfold sortPair
  by_cases hlt : pairLt b a
  · rw [if_pos hlt, if_neg (pairLt_asymm hlt)]
  · by_cases hlt2 : pairLt a b
    · rw [if_neg hlt, if_pos hlt2]
    · exact absurd (pairLt_total hlt2 hlt) hne

theorem unorderedKeyN_cases {e f : Nat × Nat}
    (h : unorderedKeyN e = unorderedKeyN f) : e = f ∨ e = (f.2, f.1) := by
  unfold unorderedKeyN at h
  split_ifs at h with h1 h2 h2
  · exact Or.inl h
  · exact Or.inr h
  · right
    have ha := congrArg Prod.fst h
    have hb := congrArg Prod.snd h
    simp only at ha hb
    exact Prod.ext_iff.mpr ⟨hb, ha⟩
  · left
    have ha := congrArg Prod.fst h
    have hb := congrArg Prod.snd h
    simp only at ha hb
    exact Prod.ext_iff.mpr ⟨hb, ha⟩

theorem ensure_node_spec (st : BBState) (c : ℚ × ℚ)
    (h1 : st.node_mapping.map Prod.snd = List.range st.nodes.length)
    (h2 : st.nodes.map Node.id = List.range st.nodes.length) :
    ((ensure_node st c).1.node_mapping.map Prod.snd
        = List.range (ensure_node st c).1.nodes.length)
    ∧ ((ensure_node st c).1.nodes.map Node.id
        = List.range (ensure_node st c).1.nodes.length)
    ∧ dictGet (ensure_node st c).1.node_mapping c = some (ensure_node st c).2
    ∧ (∀ k v, dictGet st.node_mapping k = some v →
        dictGet (ensure_node st c).1.node_mapping k = some v)
    ∧ (ensure_node st c).1.base_edges = st.base_edges
    ∧ (ensure_node st c).1.edge_seen = st.edge_seen := by
  unfold ensure_node
  cases hc : dictGet st.node_mapping c with
  | some v =>
    simp only [hc]
    exact ⟨h1, h2, trivial, fun k v hk => hk, trivial, trivial⟩
  | none =>
    simp only [hc]
    refine ⟨?_, ?_, ?_, ?_, trivial, trivial⟩
    · show (st.node_mapping ++ [(c, st.nodes.length)]).map Prod.snd
        = List.range (st.nodes ++ [_]).length
      rw [List.map_append, h1, List.length_append]
      simp [List.range_succ]
    · show (st.nodes ++ [_]).map Node.id = List.range (st.nodes ++ [_]).length
      rw [List.map_append, h2, List.length_append]
      simp [List.range_succ]
    · show dictGet (st.node_mapping ++ [(c, st.nodes.length)]) c
        = some st.nodes.length
      rw [dictGet_append_single]
      simp
    · intro k v hk
      show dictGet (st.node_mapping ++ [(c, st.nodes.length)]) k = some v
      rw [dictGet_append_single]
      by_cases hck : c = k
      · subst hck
        rw [hc] at hk
        exact absurd hk (by simp)
      · rw [if_neg hck]
        exact hk

theorem bb_add_edge_inv (st : BBState) (n1 n2 : ℚ × ℚ)
    (hne : ¬ n1 = n2) (hseen : sortPair n1 n2 ∉ st.edge_seen)
    (hinv : BBInv st) : BBInv (bb_add_edge st n1 n2) := by
  obtain ⟨h1, h2, h3, h4⟩ := hinv
  have hst1 : BBState.mk st.nodes st.base_edges st.node_mapping
      (st.edge_seen ++ [sortPair n1 n2])
      = { st with edge_seen := st.edge_seen ++ [sortPair n1 n2] } := rfl
  obtain ⟨e1a, e1b, e1c, e1d, e1e, e1f⟩ :=
    ensure_node_spec { st with edge_seen := st.edge_seen ++ [sortPair n1 n2] }
      n1 h1 h2
  obtain ⟨e2a, e2b, e2c, e2d, e2e, e2f⟩ :=
    ensure_node_spec
      (ensure_node { st with edge_seen := st.edge_seen ++ [sortPair n1 n2] }
        n1).1 n2 e1a e1b
  set st1 : BBState :=
    { st with edge_seen := st.edge_seen ++ [sortPair n1 n2] } with hs1
  set r1 := ensure_node st1 n1 with hr1
  set r2 := ensure_node r1.1 n2 with hr2
  have hFm : (bb_add_edge st n1 n2).node_mapping = r2.1.node_mapping := rfl
  have hFn : (bb_add_edge st n1 n2).nodes = r2.1.nodes := rfl
  have hFe : (bb_add_edge st n1 n2).base_edges
      = st.base_edges ++ [(r1.2, r2.2)] := by
    show r2.1.base_edges ++ [(r1.2, r2.2)] = st.base_edges ++ [(r1.2, r2.2)]
    rw [e2e, e1e]
  have hFs : (bb_add_edge st n1 n2).edge_seen
      = st.edge_seen ++ [sortPair n1 n2] := by
    show r2.1.edge_seen = st.edge_seen ++ [sortPair n1 n2]
    rw [e2f, e1f]
  have hn1 : dictGet r2.1.node_mapping n1 = some r1.2 := e2d _ _ e1c
  have hn2 : dictGet r2.1.node_mapping n2 = some r2.2 := e2c
  have hsnd : (r2.1.node_mapping.map Prod.snd).Nodup := by
    rw [e2a]; exact List.nodup_range _
  unfold BBInv
  rw [hFm, hFn, hFe, hFs]
  refine ⟨e2a, e2b, ?_, ?_⟩
  · intro e he
    rcases List.mem_append.mp he with hold | hnew
    · obtain ⟨c1, c2, hcne, hg1, hg2, hkey⟩ := h3 e hold
      exact ⟨c1, c2, hcne, e2d _ _ (e1d _ _ hg1), e2d _ _ (e1d _ _ hg2),
        List.mem_append_left _ hkey⟩
    · have heq : e = (r1.2, r2.2) := by simpa using hnew
      subst heq
      exact ⟨n1, n2, hne, hn1, hn2,
        List.mem_append_right _ (by simp)⟩
  · rw [List.pairwise_append]
    refine ⟨h4, List.pairwise_singleton _ _, ?_⟩
    intro a ha b hb hkeyeq
    have hb2 : b = (r1.2, r2.2) := by simpa using hb
    subst hb2
    obtain ⟨c1, c2, hcne, hg1, hg2, hkey⟩ := h3 a ha
    have hg1f : dictGet r2.1.node_mapping c1 = some a.1 := e2d _ _ (e1d _ _ hg1)
    have hg2f : dictGet r2.1.node_mapping c2 = some a.2 := e2d _ _ (e1d _ _ hg2)
    rcases unorderedKeyN_cases hkeyeq with hab | hab
    · have ha1 : a.1 = r1.2 := congrArg Prod.fst hab
      have ha2 : a.2 = r2.2 := congrArg Prod.snd hab
      rw [ha1] at hg1f
      rw [ha2] at hg2f
      have hc1 : c1 = n1 := dictGet_inj hsnd hg1f hn1
      have hc2 : c2 = n2 := dictGet_inj hsnd hg2f hn2
      subst hc1
      subst hc2
      exact hseen hkey
    · have ha1 : a.1 = r2.2 := congrArg Prod.fst hab
      have ha2 : a.2 = r1.2 := congrArg Prod.snd hab
      rw [ha1] at hg1f
      rw [ha2] at hg2f
      have hc1 : c1 = n2 := dictGet_inj hsnd hg1f hn2
      have hc2 : c2 = n1 := dictGet_inj hsnd hg2f hn1
      subst hc1
      subst hc2
      rw [sortPair_comm (fun q => hne q.symm)] at hkey
      exact hseen hkey

theorem bb_step_inv (vor : VorDiagram) (w h : ℚ) (st : BBState)
    (ridge : Int × Int) (hinv : BBInv st) :
    BBInv (bb_step vor w h st ridge) := by
  unfold bb_step
  split
  · exact hinv
  · dsimp only
    split
    · exact hinv
    · split
      · exact hinv
      · split
        · exact hinv
        · next hne =>
          split
          · exact hinv
          · next hseen => exact bb_add_edge_inv st _ _ hne hseen hinv

theorem build_state_inv (vor : VorDiagram) (w h : ℚ) :
    BBInv (build_base_state vor w h) := by
  unfold build_base_state
  have hfold : ∀ (l : List (Int × Int)) (st : BBState), BBInv st →
      BBInv (l.foldl (bb_step vor w h) st) := by
    intro l
    induction l with
    | nil => intro st hst; exact hst
    | cons r l ih => intro st hst; exact ih _ (bb_step_inv vor w h st r hst)
  apply hfold
  refine ⟨rfl, rfl, ?_, List.Pairwise.nil⟩
  intro e he
  exact absurd he (List.not_mem_nil e)

/-- Claim C4: in the base graph no two edges connect the same
unordered pair of node ids, and node ids are the consecutive integers
`0..k-1` in first-seen (list) order. -/
theorem claim_C4 (vor : VorDiagram) (w h : ℚ) :
    ((build_base_graph vor w h).2.map unorderedKeyN).Nodup
    ∧ (build_base_graph vor w h).1.map Node.id
      = List.range (build_base_graph vor w h).1.length := by
  obtain ⟨h1, h2, h3, h4⟩ := build_state_inv vor w h
  exact ⟨List.pairwise_map.mpr h4, h2⟩

theorem build_edges_ne (vor : VorDiagram) (w h : ℚ) :
    ∀ e ∈ (build_base_graph vor w h).2, ¬ e.1 = e.2 := by
  obtain ⟨h1, h2, h3, h4⟩ := build_state_inv vor w h
  intro e he heq
  obtain ⟨c1, c2, hcne, hg1, hg2, _⟩ := h3 e he
  have hsnd : ((build_base_state vor w h).node_mapping.map Prod.snd).Nodup := by
    rw [h1]; exact List.nodup_range _
  exact hcne (dictGet_inj hsnd hg1 (heq.symm ▸ hg2))

theorem prune_nodes_nodup {nodes : List Node} {edges : List (Nat × Nat)}
    {f : ℚ} {s : List Nat → Nat → Finset Nat}
    (hids : (nodes.map Node.id).Nodup) :
    ((prune_nodes_for_mode nodes edges f s).1.map Node.id).Nodup := by
  unfold prune_nodes_for_mode
  split
  · exact hids
  · exact hids.sublist (List.Sublist.map Node.id (List.filter_sublist nodes))

theorem prune_edges_mem {nodes : List Node} {edges : List (Nat × Nat)}
    {f : ℚ} {s : List Nat → Nat → Finset Nat} {e : Nat × Nat}
    (he : e ∈ (prune_nodes_for_mode nodes edges f s).2) : e ∈ edges := by
  unfold prune_nodes_for_mode at he
  split at he
  · exact he
  · exact (List.mem_filter.mp he).1

theorem knock_out_mem {edges : List (Nat × Nat)} {f : ℚ}
    {s : List Nat → Nat → Finset Nat} {e : Nat × Nat}
    (he : e ∈ knock_out_edges edges f s) : e ∈ edges := by
  unfold knock_out_edges at he
  split at he
  · exact he
  · rcases List.mem_map.mp he with ⟨p, hp, rfl⟩
    have hp2 := List.mem_of_mem_filter hp
    have := List.mem_map_of_mem Prod.snd hp2
    rw [List.enum_map_snd] at this
    exact this

theorem reindex_wf (nodes : List Node) (edges : List (Nat × Nat))
    (hids : (nodes.map Node.id).Nodup)
    (hne : ∀ e ∈ edges, ¬ e.1 = e.2) :
    ((reindex_nodes_and_edges nodes edges).1.map Node.id
      = List.range (reindex_nodes_and_edges nodes edges).1.length)
    ∧ ∀ e ∈ (reindex_nodes_and_edges nodes edges).2,
        e.1 < (reindex_nodes_and_edges nodes edges).1.length
        ∧ e.2 < (reindex_nodes_and_edges nodes edges).1.length
        ∧ ¬ e.1 = e.2 := by
  by_cases hemp : edges.isEmpty
  · have hnil : edges = [] := List.isEmpty_iff.mp hemp
    subst hnil
    constructor
    · rfl
    · intro e he
      simp [reindex_nodes_and_edges] at he
  · unfold reindex_nodes_and_edges
    rw [if_neg (by simpa using hemp)]
    dsimp only
    have hfilnd : ((filtered_nodes_of nodes edges).map Node.id).Nodup :=
      filtered_nodes_nodup hids
    constructor
    · apply List.ext_getElem
      · simp
      · intro i h1 h2
        have hlt : i < (filtered_nodes_of nodes edges).length := by
          simpa using h2
        have hlook := dictGet_enumFrom_idMap (filtered_nodes_of nodes edges)
          0 hfilnd i hlt
        have hlook2 : dictGet (id_map_of nodes edges)
            ((filtered_nodes_of nodes edges).get ⟨i, hlt⟩).id = some i := by
          simpa using hlook
        rw [List.getElem_map, List.getElem_map]
        have hgg : (filtered_nodes_of nodes edges)[i]
            = (filtered_nodes_of nodes edges).get ⟨i, hlt⟩ := rfl
        rw [hgg, hlook2]
        simp
    · intro e he
      rcases List.mem_filterMap.mp he with ⟨g, hg, hmap⟩
      unfold remapEdge at hmap
      cases hg1 : dictGet (id_map_of nodes edges) g.1 with
      | none => rw [hg1] at hmap; simp at hmap
      | some a =>
        cases hg2 : dictGet (id_map_of nodes edges) g.2 with
        | none => rw [hg1, hg2] at hmap; simp at hmap
        | some b =>
          rw [hg1, hg2] at hmap
          have he2 : e = (a, b) := by simpa using hmap.symm
          subst he2
          have hsnd : ((id_map_of nodes edges).map Prod.snd).Nodup := by
            rw [id_map_of_map_snd]; exact List.nodup_range _
          refine ⟨?_, ?_, ?_⟩
          · simpa using dictGet_id_map_lt hg1
          · simpa using dictGet_id_map_lt hg2
          · intro hab
            have hab2 : a = b := hab
            exact hne g hg (dictGet_inj hsnd hg1 (hab2.symm ▸ hg2))

theorem generate_mode_graph_wf (mode : String) (nodes : List Node)
    (base_edges : List (Nat × Nat)) (rnd : ModeRandom)
    (hids : (nodes.map Node.id).Nodup)
    (hne : ∀ e ∈ base_edges, ¬ e.1 = e.2) :
    modeGraphWF (generate_mode_graph mode nodes base_edges rnd) = true := by
  have hids2 : (((prune_nodes_for_mode nodes base_edges
      NODE_REMOVAL_FRACTION rnd.nodeSample).1).map Node.id).Nodup :=
    prune_nodes_nodup hids
  have hne2 : ∀ e ∈ knock_out_edges
      (prune_nodes_for_mode nodes base_edges NODE_REMOVAL_FRACTION
        rnd.nodeSample).2 EDGE_REMOVAL_FRACTION rnd.edgeSample,
      ¬ e.1 = e.2 :=
    fun e he => hne e (prune_edges_mem (knock_out_mem he))
  obtain ⟨wa, wb⟩ := reindex_wf _ _ hids2 hne2
  unfold generate_mode_graph modeGraphWF
  dsimp only
  rw [Bool.and_eq_true]
  constructor
  · rw [decide_eq_true_eq]
    exact wa
  · rw [List.all_eq_true]
    intro er her
    rcases List.mem_map.mp her with ⟨p, hp, rfl⟩
    have hp2 := List.mem_map_of_mem Prod.snd hp
    rw [List.enum_map_snd] at hp2
    obtain ⟨w1, w2, w3⟩ := wb p.2 hp2
    simp only [Bool.and_eq_true, decide_eq_true_eq]
    exact ⟨⟨w1, w2⟩, w3⟩

theorem recenter_map_id (nodes : List Node) :
    (recenter nodes).map Node.id = nodes.map Node.id := by
  unfold recenter
  split
  · rfl
  · rw [List.map_map]
    exact List.map_congr_left (fun nd _ => rfl)

theorem build_nodes_id_nodup (vor : VorDiagram) (w h : ℚ) :
    ((build_base_graph vor w h).1.map Node.id).Nodup := by
  obtain ⟨h1, h2, h3, h4⟩ := build_state_inv vor w h
  have : (build_base_graph vor w h).1 = (build_base_state vor w h).nodes := rfl
  rw [this, h2]
  exact List.nodup_range _

theorem dictInsertMG_all {m : List (String × ModeGraph)} {k : String}
    {g : ModeGraph} (hm : (m.all fun p => modeGraphWF p.2) = true)
    (hg : modeGraphWF g = true) :
    ((dictInsertMG m k g).all fun p => modeGraphWF p.2) = true := by
  unfold dictInsertMG
  rw [List.all_eq_true] at hm
  split
  · rw [List.all_eq_true]
    intro p hp
    rcases List.mem_map.mp hp with ⟨q, hq, rfl⟩
    by_cases hqk : q.1 = k
    · simp only [if_pos hqk]
      exact hg
    · simp only [if_neg hqk]
      exact hm q hq
  · rw [List.all_eq_true]
    intro p hp
    rcases List.mem_append.mp hp with hp2 | hp2
    · exact hm p hp2
    · have : p = (k, g) := by simpa using hp2
      subst this
      exact hg

theorem network_fold_all (nodes : List Node) (base : List (Nat × Nat))
    (mr : Nat → ModeRandom) (hids : (nodes.map Node.id).Nodup)
    (hne : ∀ e ∈ base, ¬ e.1 = e.2) :
    ∀ (l : List (Nat × String)) (acc : List (String × ModeGraph)),
      (acc.all fun p => modeGraphWF p.2) = true →
      ((l.foldl (fun m p => dictInsertMG m p.2
          (generate_mode_graph p.2 nodes base (mr p.1))) acc).all
        fun p => modeGraphWF p.2) = true := by
  intro l
  induction l with
  | nil => intro acc hacc; exact hacc
  | cons p l ih =>
    intro acc hacc
    exact ih _ (dictInsertMG_all hacc
      (generate_mode_graph_wf p.2 nodes base (mr p.1) hids hne))

/-- Claim C1: for every requested point count and mode list and all
oracle behaviours, every mode graph in the generated network has node
ids exactly `0..k-1` (in list order) and every edge has in-range,
distinct endpoints. -/
theorem claim_C1 (n : Nat) (modes : List String) (O : Oracles)
    (hn : 4 ≤ n) :
    ((generate_network n modes O).graphs.all
      fun p => modeGraphWF p.2) = true := by
  unfold generate_network
  dsimp only
  apply network_fold_all
  · rw [recenter_map_id]
    exact build_nodes_id_nodup _ _ _
  · exact build_edges_ne _ _ _
  · rfl

theorem claim_C1_witness :
    4 ≤ 4
    ∧ ((generate_network 4 ["Walk"] trivOracles).graphs.all
        fun p => modeGraphWF p.2) = true :=
  ⟨le_rfl, claim_C1 4 ["Walk"] trivOracles le_rfl⟩

theorem claim_C6_witness :
    ((0 : ℚ) ≤ 2 / 10 ∧ (2 : ℚ) / 10 < 1)
    ∧ (knock_out_edges edgesEx6 (2 / 10) sampleEx).length
      = edgesEx6.length
        - Int.toNat (Int.floor ((edgesEx6.length : ℚ) * (2 / 10))) := by
  have hlen : edgesEx6.length = 5 := rfl
  have hfl : Int.floor ((edgesEx6.length : ℚ) * (2 / 10)) = 1 := by
    rw [hlen]
    norm_num
  refine ⟨⟨by norm_num, by norm_num⟩, ?_⟩
  exact claim_C6 edgesEx6 (2 / 10) sampleEx (by norm_num) (by norm_num)
    (by rw [hfl]; decide) (by rw [hfl]; decide)

theorem heapRead_append {cells ext : List Node} {a : Nat}
    (ha : a < cells.length) :
    heapRead (cells ++ ext) a = heapRead cells a := by
  unfold heapRead
  rw [List.getD_append _ _ _ _ ha]

theorem allocCopies_spec (cells : List Node) :
    ∀ (addrs : List Nat) (c0 : List Node) (a0 : List Nat),
      (∃ ext, c0 = cells ++ ext) → (∀ x ∈ a0, cells.length ≤ x) →
      (∃ ext2, (addrs.foldl
          (fun st a => (st.1 ++ [heapRead st.1 a], st.2 ++ [st.1.length]))
          (c0, a0)).1 = cells ++ ext2)
      ∧ ∀ x ∈ (addrs.foldl
          (fun st a => (st.1 ++ [heapRead st.1 a], st.2 ++ [st.1.length]))
          (c0, a0)).2, cells.length ≤ x := by
  intro addrs
  induction addrs with
  | nil => intro c0 a0 h1 h2; exact ⟨h1, h2⟩
  | cons a addrs ih =>
    intro c0 a0 h1 h2
    obtain ⟨ext, hext⟩ := h1
    simp only [List.foldl_cons]
    apply ih
    · exact ⟨ext ++ [heapRead c0 a], by rw [hext, List.append_assoc]⟩
    · intro x hx
      rcases List.mem_append.mp hx with hx | hx
      · exact h2 x hx
      · have hx2 : x = c0.length := by simpa using hx
        subst hx2
        rw [hext, List.length_append]
        exact Nat.le_add_right _ _

theorem allocCopies_alloc (cells : List Node) (addrs : List Nat) :
    (∃ ext, (allocCopies cells addrs).1 = cells ++ ext)
    ∧ ∀ x ∈ (allocCopies cells addrs).2, cells.length ≤ x := by
  unfold allocCopies
  exact allocCopies_spec cells addrs cells [] ⟨[], by simp⟩ (by simp)

theorem allocCopies_frame {cells : List Node} {addrs : List Nat} {a : Nat}
    (ha : a < cells.length) :
    heapRead (allocCopies cells addrs).1 a = heapRead cells a := by
  obtain ⟨⟨ext, hext⟩, _⟩ := allocCopies_alloc cells addrs
  rw [hext]
  exact heapRead_append ha

theorem allocCopies_len (cells : List Node) (addrs : List Nat) :
    cells.length ≤ (allocCopies cells addrs).1.length := by
  obtain ⟨⟨ext, hext⟩, _⟩ := allocCopies_alloc cells addrs
  rw [hext, List.length_append]
  exact Nat.le_add_right _ _

theorem heapWriteId_frame {cells : List Node} {a b v : Nat}
    (hne : ¬ b = a) :
    heapRead (heapWriteId cells a v) b = heapRead cells b := by
  unfold heapWriteId heapRead
  simp [List.getD, List.getElem?_set_ne (fun q => hne q.symm)]

theorem foldl_write_frame (g : List Node → Nat → Nat) :
    ∀ (ws : List Nat) (cc : List Node) (b : Nat),
      (∀ a ∈ ws, ¬ b = a) →
      heapRead (ws.foldl (fun c a => heapWriteId c a (g c a)) cc) b
        = heapRead cc b := by
  intro ws
  induction ws with
  | nil => intro cc b _; rfl
  | cons a ws ih =>
    intro cc b hb
    simp only [List.foldl_cons]
    rw [ih _ _ (fun x hx => hb x (List.mem_cons_of_mem a hx))]
    exact heapWriteId_frame (hb a (List.mem_cons_self a ws))

theorem prune_st_props (cells : List Node) (addrs : List Nat)
    (edges : List (Nat × Nat)) (f : ℚ) (s : List Nat → Nat → Finset Nat) :
    (∀ b, b < cells.length →
      heapRead (prune_nodes_for_mode_st cells addrs edges f s).1 b
        = heapRead cells b)
    ∧ cells.length ≤ (prune_nodes_for_mode_st cells addrs edges f s).1.length := by
  unfold prune_nodes_for_mode_st
  split
  · dsimp only
    exact ⟨fun b hb => allocCopies_frame hb, allocCopies_len _ _⟩
  · dsimp only
    exact ⟨fun b hb => allocCopies_frame hb, allocCopies_len _ _⟩

theorem reindex_st_frame (cells : List Node) (addrs : List Nat)
    (edges : List (Nat × Nat)) :
    ∀ b, b < cells.length →
      heapRead (reindex_nodes_and_edges_st cells addrs edges).1 b
        = heapRead cells b := by
  unfold reindex_nodes_and_edges_st
  split
  · intro b _; rfl
  · dsimp only
    intro b hb
    rw [foldl_write_frame _ _ _ b ?haddr]
    · exact allocCopies_frame hb
    case haddr =>
      intro a ha hba
      have h2 := (allocCopies_alloc cells _).2 a ha
      omega

/-- Claim C7: deriving a mode graph never mutates the shared base
node dict objects: every heap cell allocated before the call, in
particular every base node, reads back unchanged, whole record
included, after `generate_mode_graph` runs.  Modelled on an explicit
heap of dict objects with Python copy and in-place update semantics. -/
theorem claim_C7 (mode : String) (cells : List Node) (addrs : List Nat)
    (base_edges : List (Nat × Nat)) (rnd : ModeRandom) (b : Nat)
    (hb : b < cells.length) :
    heapRead (generate_mode_graph_st mode cells addrs base_edges rnd).1 b
      = heapRead cells b := by
  unfold generate_mode_graph_st
  dsimp only
  have hpr := prune_st_props cells addrs base_edges NODE_REMOVAL_FRACTION
    rnd.nodeSample
  have h1 : b < (prune_nodes_for_mode_st cells addrs base_edges
      NODE_REMOVAL_FRACTION rnd.nodeSample).1.length :=
    lt_of_lt_of_le hb hpr.2
  rw [reindex_st_frame _ _ _ b h1]
  exact hpr.1 b hb

theorem claim_C7_witness :
    0 < [mkNodeEx 0 0 0].length
    ∧ heapRead (generate_mode_graph_st ("Walk") [mkNodeEx 0 0 0] [0] []
        trivModeRandom).1 0
      = heapRead [mkNodeEx 0 0 0] 0 :=
  ⟨by decide,
   claim_C7 ("Walk") [mkNodeEx 0 0 0] [0] [] trivModeRandom 0 (by decide)⟩
